import Mathlib

/-!
Shallow embedding of the market-data service of the stonks-dashboard
repository (file `src/dataService.js`).  JavaScript numbers are modelled as
rationals (ℚ), epoch-millisecond clock readings as integers (ℤ), and
null/undefined/NaN provider values as `Option`.  Network effects are made
explicit: each outbound HTTP call is represented by an environment record
giving the outcome of every attempt, and `Date.now()` by an explicit `now`
parameter.  Fallible JS code (`try`/`catch`) becomes a `match` on
`Except` values.
-/

namespace Stonks

/-- JavaScript `x || y` on numbers: `y` when `x` is falsy (zero), else `x`.
(NaN, the other falsy number, is modelled as `Option.none` upstream and never
reaches this operator.) -/
def jsOr (x y : ℚ) : ℚ := if x = 0 then y else x

/-- Model of `Math.max(...l)` for the (guarded) non-empty case; the `[]`
case is never consulted because the source guards with `length > 0`. -/
def maxD : List ℚ → ℚ
  | [] => 0
  | x :: xs => xs.foldl max x

/-- Model of `Math.min(...l)` for the (guarded) non-empty case. -/
def minD : List ℚ → ℚ
  | [] => 0
  | x :: xs => xs.foldl min x

/-- Constant `COINGECKO_DELAY = 5000` (ms between CoinGecko calls). -/
def COINGECKO_DELAY : Int := 5000

/-- Constant `CACHE_TTL = 60 * 1000` (1 minute). -/
def CACHE_TTL : Int := 60 * 1000

/-- Constant `DETAIL_TTL = 30 * 60 * 1000` (30 minutes). -/
def DETAIL_TTL : Int := 30 * 60 * 1000

/-- The canonical asset record assembled by the adapters.  Fields that a
given JS object literal omits are `undefined` there; they are modelled by
the defaults below (numeric fields 0, lists empty, options `none`,
booleans `false`). -/
structure Asset where
  symbol : String := ""
  type : String := ""
  currency : Option String := none
  price : ℚ := 0
  change : ℚ := 0
  change24h : ℚ := 0
  history : List ℚ := []
  timestamps : List Int := []
  openP : ℚ := 0
  previousClose : ℚ := 0
  high : ℚ := 0
  low : ℚ := 0
  high52w : ℚ := 0
  low52w : ℚ := 0
  marketCap : ℚ := 0
  volume : ℚ := 0
  avgVolume : ℚ := 0
  circulatingSupply : ℚ := 0
  totalSupply : ℚ := 0
  rank : ℚ := 0
  pe : ℚ := 0
  timestamp : Option Int := none
  fromCache : Bool := false
  error : Bool := false
deriving Repr, DecidableEq

/-- The crypto detail record built in `fetchCryptoData` from the CoinGecko
coin endpoint (`md.current_price?.usd || null` etc.); option fields model
the `|| null` construction, plain fields the `|| 0` one. -/
structure DetailData where
  currentPrice : Option ℚ := none
  change24h : ℚ := 0
  high24h : Option ℚ := none
  low24h : Option ℚ := none
  ath : Option ℚ := none
  atl : Option ℚ := none
  marketCap : ℚ := 0
  volume24h : ℚ := 0
  circulatingSupply : ℚ := 0
  totalSupply : ℚ := 0
  rank : ℚ := 0
  timestamp : Int := 0
deriving Repr, DecidableEq

/-- A value stored in the `DataService` cache `Map`: either an assembled
asset (chart keys) or a crypto detail record (detail keys). -/
inductive CacheVal where
  | chartA (a : Asset)
  | detailD (d : DetailData)
deriving Repr, DecidableEq

/-- The in-memory cache `Map` (string key to entry); the most recent
`set` of a key wins on lookup, matching JS `Map` semantics. -/
def Cache := List (String × CacheVal)

/-- Model of `this.cache.get(key)`. -/
def cacheGet (c : Cache) (k : String) : Option CacheVal :=
  match c with
  | [] => none
  | (k', v) :: rest => if k' = k then some v else cacheGet rest k

/-- Model of `this.cache.set(key, value)`. -/
def cacheSet (c : Cache) (k : String) (v : CacheVal) : Cache := (k, v) :: c

/-- Model of `this.cache.has(key)`. -/
def cacheHas (c : Cache) (k : String) : Bool := (cacheGet c k).isSome

/-- The `timestamp` field read off a cached entry by `isCacheValid`; for an
asset entry the field is itself optional (placeholder assets lack it). -/
def CacheVal.tsField : CacheVal → Option Int
  | .chartA a => a.timestamp
  | .detailD d => some d.timestamp

/-- Reading a cached entry back as an asset, as `{...cached}` does.  A
detail record spread as an asset has every asset field `undefined`, hence
the defaults; that branch is unreachable because chart keys (prefixes
`crypto-`, `stock-`) and detail keys (prefix `detail-`) never collide. -/
def CacheVal.asAsset : CacheVal → Asset
  | .chartA a => a
  | .detailD _ => {}

/-- The asset obtained by spreading the entry stored under `k`; `get` of an
absent key yields `undefined`, whose spread contributes no fields. -/
def cachedAsset (c : Cache) (k : String) : Asset :=
  match cacheGet c k with
  | some e => e.asAsset
  | none => {}

/-- Model of `isCacheValid(cacheKey, ttl)`: false when the key is absent or
`cached.timestamp` is falsy (missing or 0), else `(Date.now() - timestamp)
< ttl`. -/
def isCacheValid (c : Cache) (now : Int) (key : String) (ttl : Int) : Bool :=
  match cacheGet c key with
  | none => false
  | some e =>
    match e.tsField with
    | none => false
    | some t => if t = 0 then false else decide (now - t < ttl)

/-- Model of `waitForCoinGecko`, with the module-level `lastCoinGeckoCall`
passed and returned explicitly.  Under an ideal clock the second
`Date.now()` reads `now + sleep`; the result is `(sleep milliseconds,
new lastCoinGeckoCall)`. -/
def waitForCoinGecko (lastCall now : Int) : Int × Int :=
  let elapsed := now - lastCall
  if elapsed < COINGECKO_DELAY then
    (COINGECKO_DELAY - elapsed, now + (COINGECKO_DELAY - elapsed))
  else (0, now)

/-- Retryability test of `axiosGetWithRetry`:
`status === 429 || (status >= 500) || !status`, where `status` is
`e.response?.status` (`none` when no response was received; `!status` is
also true for a literal status 0). -/
def shouldRetry (status : Option Nat) : Bool :=
  match status with
  | none => true
  | some s => s == 429 || 500 ≤ s || s == 0

/-- The attempt loop of `axiosGetWithRetry`, with the outcome of the
`axios.get` of attempt `i` supplied by `attempts i` (`Except.error st`
carries `e.response?.status`).  `rem` is the number of attempts still
allowed after attempt `i`, so the JS guard `attempt < retries` is
`0 < rem`. -/
def retryGo {α : Type} (attempts : Nat → Except (Option Nat) α) (i : Nat) :
    Nat → Except (Option Nat) α
  | 0 => attempts i
  | rem + 1 =>
    match attempts i with
    | .ok v => .ok v
    | .error st =>
      if shouldRetry st then retryGo attempts (i + 1) rem else .error st

/-- Model of `axiosGetWithRetry(url, options, retries)`: attempt 0 plus at
most `retries` further attempts, retrying only retryable failures. -/
def axiosGetWithRetry {α : Type} (attempts : Nat → Except (Option Nat) α)
    (retries : Nat) : Except (Option Nat) α :=
  retryGo attempts 0 retries

/-- The chart key `crypto-SYMBOL-DAYS` of `fetchCryptoData`. -/
def cryptoChartKey (symbol : String) (days : Int) : String :=
  "crypto-" ++ symbol ++ "-" ++ toString days

/-- The detail key `detail-COINID` of `fetchCryptoData`. -/
def detailKeyOf (coinId : String) : String := "detail-" ++ coinId

/-- The cache key `stock-SYMBOL-DAYS` of `fetchStockData`. -/
def stockKeyOf (symbol : String) (days : Int) : String :=
  "stock-" ++ symbol ++ "-" ++ toString days

/-- CoinGecko market-chart response body: `chartResponse.data.prices`
(`none` for an absent field, mapped through `|| []`); a sample is a raw
`[timestamp, price]` pair whose components may each be missing or
non-numeric (`none`). -/
structure ChartResponse where
  prices : Option (List (Option Int × Option ℚ)) := none
deriving Repr, DecidableEq

/-- The filtering loop of `fetchCryptoData`: keep samples whose value is a
number, pairing each kept value with its timestamp when numeric and with
`Date.now()` otherwise.  Returns `(timestamps, prices)` in input order. -/
def filterChart (now : Int) : List (Option Int × Option ℚ) → List Int × List ℚ
  | [] => ([], [])
  | (ts, v) :: rest =>
    let r := filterChart now rest
    match v with
    | some x => (ts.getD now :: r.1, x :: r.2)
    | none => r

/-- The filtered crypto price series, seeded with `[0]` when empty
(`if (prices.length === 0) prices.push(0)`). -/
def cryptoPricesOf (now : Int) (chart : ChartResponse) : List ℚ :=
  let p := (filterChart now (chart.prices.getD [])).2
  if p = [] then [0] else p

/-- The aligned timestamps of the filtered crypto price series. -/
def cryptoTimestampsOf (now : Int) (chart : ChartResponse) : List Int :=
  (filterChart now (chart.prices.getD [])).1

/-- Outcomes of the external world for one `fetchCryptoData` call: the
result of every chart attempt and every detail attempt (both endpoints are
called through `axiosGetWithRetry`), and the clock reading. -/
structure CryptoEnv where
  chartAttempts : Nat → Except (Option Nat) ChartResponse
  detailAttempts : Nat → Except (Option Nat) DetailData
  now : Int

/-- The detail record used by `fetchCryptoData`: the cached one when the
detail key is valid (a chart entry read as detail data has every detail
field `undefined`, hence the defaults), else the freshly fetched one
(timestamped now), else `null` when the optional detail fetch fails. -/
def cryptoDetailUsed (cache : Cache) (env : CryptoEnv) (coinId : String) :
    Option DetailData :=
  if isCacheValid cache env.now (detailKeyOf coinId) DETAIL_TTL then
    match cacheGet cache (detailKeyOf coinId) with
    | some (.detailD d) => some d
    | some (.chartA _) => some {}
    | none => none
  else
    match axiosGetWithRetry env.detailAttempts 3 with
    | .ok d => some { d with timestamp := env.now }
    | .error _ => none

/-- The cache after the optional detail fetch of `fetchCryptoData` (a fresh
detail record is stored under the detail key and persisted). -/
def cryptoDetailCache (cache : Cache) (env : CryptoEnv) (coinId : String) :
    Cache :=
  if isCacheValid cache env.now (detailKeyOf coinId) DETAIL_TTL then cache
  else
    match axiosGetWithRetry env.detailAttempts 3 with
    | .ok d => cacheSet cache (detailKeyOf coinId) (.detailD { d with timestamp := env.now })
    | .error _ => cache

/-- The asset object assembled on the successful path of
`fetchCryptoData` from the filtered series and the (possibly absent)
detail record. -/
def cryptoAssetOf (symbol : String) (now : Int) (chart : ChartResponse)
    (detail : Option DetailData) : Asset :=
  let prices := cryptoPricesOf now chart
  let timestamps := cryptoTimestampsOf now chart
  let validPrices := prices.filter (fun p => decide (0 < p))
  let currentPrice :=
    jsOr ((detail.bind (fun d => d.currentPrice)).getD (prices.getLast?.getD 0)) 0
  let firstPrice := jsOr (prices.head?.getD 0) currentPrice
  let change :=
    if 0 < firstPrice then (currentPrice - firstPrice) / firstPrice * 100 else 0
  { symbol := symbol
    type := "crypto"
    price := currentPrice
    change := change
    change24h := (detail.map (fun d => d.change24h)).getD 0
    history := prices
    timestamps := timestamps
    openP := jsOr (prices.head?.getD 0) 0
    high := jsOr ((detail.bind (fun d => d.high24h)).getD
      (if validPrices ≠ [] then maxD validPrices else 0)) 0
    low := jsOr ((detail.bind (fun d => d.low24h)).getD
      (if validPrices ≠ [] then minD validPrices else 0)) 0
    high52w := (detail.bind (fun d => d.ath)).getD 0
    low52w := (detail.bind (fun d => d.atl)).getD 0
    marketCap := (detail.map (fun d => d.marketCap)).getD 0
    volume := (detail.map (fun d => d.volume24h)).getD 0
    circulatingSupply := (detail.map (fun d => d.circulatingSupply)).getD 0
    totalSupply := (detail.map (fun d => d.totalSupply)).getD 0
    rank := (detail.map (fun d => d.rank)).getD 0
    timestamp := some now
    error := false }

/-- The zero-valued placeholder returned by `fetchCryptoData` when the
fetch fails and no cache entry exists (its object literal omits
`timestamps`, `timestamp` and `fromCache`). -/
def cryptoPlaceholder (symbol : String) : Asset :=
  { symbol := symbol, type := "crypto", price := 0, change := 0,
    change24h := 0, history := [0], openP := 0, high := 0, low := 0,
    high52w := 0, low52w := 0, marketCap := 0, volume := 0,
    circulatingSupply := 0, totalSupply := 0, rank := 0, error := true }

/-- Model of `fetchCryptoData(symbol, coinId, days)`: returns the asset and
the updated cache.  The only statement inside the `try` that can throw
unhandled is the chart `axiosGetWithRetry` (the detail fetch has its own
`catch`), so the catch-branch is entered exactly on a chart fetch error. -/
def fetchCryptoData (cache : Cache) (env : CryptoEnv) (symbol coinId : String)
    (days : Int) : Asset × Cache :=
  let chartKey := cryptoChartKey symbol days
  if isCacheValid cache env.now chartKey CACHE_TTL then
    ({ cachedAsset cache chartKey with fromCache := true }, cache)
  else
    match axiosGetWithRetry env.chartAttempts 3 with
    | .error _ =>
      if cacheHas cache chartKey then
        ({ cachedAsset cache chartKey with error := true, fromCache := true }, cache)
      else
        (cryptoPlaceholder symbol, cache)
    | .ok chart =>
      let detail := cryptoDetailUsed cache env coinId
      let cache1 := cryptoDetailCache cache env coinId
      let result := cryptoAssetOf symbol env.now chart detail
      (result, cacheSet cache1 chartKey (.chartA result))

/-- The meta block of the Yahoo chart response.  Numeric fields are only
ever read through `||`, under which an absent field and a zero field
behave identically, so both are modelled as 0. -/
structure StockMeta where
  currency : Option String := none
  instrumentType : String := ""
  regularMarketPrice : ℚ := 0
  chartPreviousClose : ℚ := 0
  regularMarketDayHigh : ℚ := 0
  regularMarketDayLow : ℚ := 0
  fiftyTwoWeekHigh : ℚ := 0
  fiftyTwoWeekLow : ℚ := 0
  regularMarketVolume : ℚ := 0
deriving Repr, DecidableEq

/-- Yahoo chart response: `quote.close`, `quote.open`, `result.timestamp`
(seconds) and the meta block; the arrays pass through `|| []`. -/
structure StockChart where
  closes : Option (List (Option ℚ)) := none
  opens : Option (List (Option ℚ)) := none
  chartTs : Option (List (Option Int)) := none
  meta : StockMeta := {}
deriving Repr, DecidableEq

/-- Yahoo quote response record (`quoteResponse.result[0]`); numeric fields
are read through `||`, so 0 models absent. -/
structure QuoteData where
  marketCap : ℚ := 0
  trailingPE : ℚ := 0
  forwardPE : ℚ := 0
  averageDailyVolume3Month : ℚ := 0
  averageDailyVolume10Day : ℚ := 0
  fiftyTwoWeekHigh : ℚ := 0
  fiftyTwoWeekLow : ℚ := 0
  regularMarketOpen : ℚ := 0
deriving Repr, DecidableEq

/-- Outcomes of the external world for one `fetchStockData` call.  The
chart request outcome may depend on the requested `(range, interval)` and
on the attempt index; the quote request is made once.  `fetchStockData`
issues the chart request with a single bare `axios.get`, so only attempt
index 0 is ever consulted. -/
structure StockEnv where
  chartAttempts : String → String → Nat → Except (Option Nat) StockChart
  quoteAttempt : Except (Option Nat) (Option QuoteData)
  now : Int

/-- The range/interval selection of `fetchStockData` (the `if`/`else`
chain over `days`). -/
def selectRange (days : Int) : String × String :=
  if days ≤ 1 then ("1d", "1h")
  else if days ≤ 7 then ("7d", "1d")
  else if days ≤ 30 then ("1mo", "1d")
  else ("3mo", "1d")

/-- The filtering loop of `fetchStockData`: keep numeric closes, pairing
each with `rawTimestamps[i] * 1000` when that entry is numeric and with
`Date.now()` otherwise.  Returns `(closePrices, timestamps)` in input
order. -/
def filterCloses (now : Int) :
    List (Option ℚ) → List (Option Int) → List ℚ × List Int
  | [], _ => ([], [])
  | c :: cs, ts =>
    let r := filterCloses now cs ts.tail
    match c with
    | some v =>
      (v :: r.1,
       (match ts.head? with
        | some (some t) => t * 1000
        | _ => now) :: r.2)
    | none => r

/-- The filtered close series of `fetchStockData`, seeded with `[0]` when
empty. -/
def stockClosesOf (now : Int) (chart : StockChart) : List ℚ :=
  let p := (filterCloses now (chart.closes.getD []) (chart.chartTs.getD [])).1
  if p = [] then [0] else p

/-- The aligned epoch-millisecond timestamps of the filtered close series. -/
def stockTimestampsOf (now : Int) (chart : StockChart) : List Int :=
  (filterCloses now (chart.closes.getD []) (chart.chartTs.getD [])).2

/-- `currentPrice = meta.regularMarketPrice || closePrices[last] || 0`. -/
def stockCurrentPriceOf (now : Int) (chart : StockChart) : ℚ :=
  jsOr chart.meta.regularMarketPrice
    (jsOr ((stockClosesOf now chart).getLast?.getD 0) 0)

/-- `previousClose = meta.chartPreviousClose || closePrices[0] ||
currentPrice`. -/
def stockPrevCloseOf (now : Int) (chart : StockChart) : ℚ :=
  jsOr chart.meta.chartPreviousClose
    (jsOr ((stockClosesOf now chart).head?.getD 0) (stockCurrentPriceOf now chart))

/-- The percent change computed by `fetchStockData`, guarded on a positive
previous close. -/
def stockChangeOf (now : Int) (chart : StockChart) : ℚ :=
  let currentPrice := stockCurrentPriceOf now chart
  let previousClose := stockPrevCloseOf now chart
  if 0 < previousClose then (currentPrice - previousClose) / previousClose * 100
  else 0

/-- The asset object assembled on the successful path of `fetchStockData`,
including the optional quote-data overrides (`if (quoteData) {...}`). -/
def stockAssetOf (symbol : String) (now : Int) (chart : StockChart)
    (quoteData : Option QuoteData) : Asset :=
  let closePrices := stockClosesOf now chart
  let meta := chart.meta
  let currentPrice := stockCurrentPriceOf now chart
  let previousClose := stockPrevCloseOf now chart
  let validPrices := closePrices.filter (fun p => decide (0 < p))
  let openPrices := (chart.opens.getD []).filterMap id
  let openPrice := jsOr (openPrices.getLast?.getD 0) previousClose
  let base : Asset :=
    { symbol := symbol
      currency := meta.currency
      type := meta.instrumentType
      price := currentPrice
      change := stockChangeOf now chart
      change24h := stockChangeOf now chart
      history := closePrices
      timestamps := stockTimestampsOf now chart
      openP := openPrice
      previousClose := previousClose
      high := jsOr meta.regularMarketDayHigh
        (if validPrices ≠ [] then maxD validPrices else 0)
      low := jsOr meta.regularMarketDayLow
        (if validPrices ≠ [] then minD validPrices else 0)
      high52w := jsOr meta.fiftyTwoWeekHigh 0
      low52w := jsOr meta.fiftyTwoWeekLow 0
      marketCap := 0
      volume := jsOr meta.regularMarketVolume 0
      avgVolume := 0
      pe := 0
      timestamp := some now
      error := false }
  match quoteData with
  | none => base
  | some q =>
    { base with
      marketCap := jsOr q.marketCap 0
      pe := jsOr q.trailingPE (jsOr q.forwardPE 0)
      avgVolume := jsOr q.averageDailyVolume3Month (jsOr q.averageDailyVolume10Day 0)
      high52w := jsOr q.fiftyTwoWeekHigh base.high52w
      low52w := jsOr q.fiftyTwoWeekLow base.low52w
      openP := jsOr q.regularMarketOpen base.openP }

/-- The quote record effectively used by `fetchStockData`: the inner
`try`/`catch` turns a quote fetch failure into no overrides. -/
def quoteUsed (env : StockEnv) : Option QuoteData :=
  match env.quoteAttempt with
  | .ok q => q
  | .error _ => none

/-- The zero-valued placeholder returned by `fetchStockData` when the fetch
fails and no cache entry exists. -/
def stockPlaceholder (symbol : String) : Asset :=
  { symbol := symbol, type := "stock", price := 0, change := 0,
    change24h := 0, history := [0], openP := 0, previousClose := 0,
    high := 0, low := 0, high52w := 0, low52w := 0, marketCap := 0,
    volume := 0, avgVolume := 0, pe := 0, error := true }

/-- Model of `fetchStockData(symbol, days)`.  The chart request is a single
bare `axios.get` — not `axiosGetWithRetry` — so exactly attempt 0 of the
environment is consulted; its failure goes straight to the catch branch. -/
def fetchStockData (cache : Cache) (env : StockEnv) (symbol : String)
    (days : Int) : Asset × Cache :=
  let cacheKey := stockKeyOf symbol days
  if isCacheValid cache env.now cacheKey CACHE_TTL then
    ({ cachedAsset cache cacheKey with fromCache := true }, cache)
  else
    let ri := selectRange days
    match env.chartAttempts ri.1 ri.2 0 with
    | .error _ =>
      if cacheHas cache cacheKey then
        ({ cachedAsset cache cacheKey with error := true, fromCache := true }, cache)
      else
        (stockPlaceholder symbol, cache)
    | .ok chart =>
      let data := stockAssetOf symbol env.now chart (quoteUsed env)
      (data, cacheSet cache cacheKey (.chartA data))

/-- The external-world outcomes for one iteration of `fetchAllAssets`. -/
structure FetchEnv where
  crypto : CryptoEnv
  stock : StockEnv

/-- One iteration of the `fetchAllAssets` loop: `const coinId =
cryptoIds[ticker]; if (coinId) ...` — a JS truthiness test, so an absent
entry and an empty-string entry both dispatch to `fetchStockData`. -/
def dispatchOne (cache : Cache) (env : FetchEnv)
    (cryptoIds : String → Option String) (days : Int) (ticker : String) :
    Asset × Cache :=
  match cryptoIds ticker with
  | some coinId =>
    if coinId = "" then fetchStockData cache env.stock ticker days
    else fetchCryptoData cache env.crypto ticker coinId days
  | none => fetchStockData cache env.stock ticker days

/-- The sequential loop of `fetchAllAssets`, threading the cache and
numbering iterations so the environment of the `i`-th fetch is `envs i`. -/
def fetchAllFrom (envs : Nat → FetchEnv) (cryptoIds : String → Option String)
    (days : Int) : Cache → Nat → List String → List Asset × Cache
  | cache, _, [] => ([], cache)
  | cache, i, t :: ts =>
    let r := dispatchOne cache (envs i) cryptoIds days t
    let rest := fetchAllFrom envs cryptoIds days r.2 (i + 1) ts
    (r.1 :: rest.1, rest.2)

/-- Model of `fetchAllAssets(tickers, cryptoIds, days)`: sequential
dispatch over the tickers in input order, pushing one result each. -/
def fetchAllAssets (cache : Cache) (envs : Nat → FetchEnv)
    (tickers : List String) (cryptoIds : String → Option String)
    (days : Int) : List Asset × Cache :=
  fetchAllFrom envs cryptoIds days cache 0 tickers

/-- Invariant of a returned asset: a non-empty history, and timestamps
aligned with it whenever they are populated. -/
def assetWF (a : Asset) : Prop :=
  1 ≤ a.history.length ∧ (a.timestamps ≠ [] → a.timestamps.length = a.history.length)

/-- Well-formedness of whatever is stored under a chart cache key: any
entry there reads back as an asset satisfying the invariant. -/
def chartEntryWF (c : Cache) (k : String) : Prop :=
  ∀ e, cacheGet c k = some e → assetWF e.asAsset

/-- Concrete attempt sequence whose first outcome is a terminal 404. -/
def term404Attempts : Nat → Except (Option Nat) Nat :=
  fun n => if n = 0 then .error (some 404) else .ok 0

/-- Concrete CoinGecko chart response with prices 100, 105, 110. -/
def scenarioChart : ChartResponse :=
  { prices := some [(some 1, some 100), (some 2, some 105), (some 3, some 110)] }

/-- Concrete crypto environment: first chart attempt answers 429, the
second succeeds with `scenarioChart`; the detail fetch always fails. -/
def envBTC : CryptoEnv :=
  { chartAttempts := fun n => if n = 0 then .error (some 429) else .ok scenarioChart
    detailAttempts := fun _ => .error none
    now := 0 }

/-- Concrete crypto environment in which every request fails without a
response. -/
def failCryptoEnv : CryptoEnv :=
  { chartAttempts := fun _ => .error none
    detailAttempts := fun _ => .error none
    now := 0 }

/-- Concrete stock environment in which every request fails without a
response. -/
def failStockEnv : StockEnv :=
  { chartAttempts := fun _ _ _ => .error none
    quoteAttempt := .error none
    now := 0 }

/-- Concrete per-iteration environment in which every request fails. -/
def failFetchEnv : FetchEnv := { crypto := failCryptoEnv, stock := failStockEnv }

/-- Concrete id map with an empty-string entry for ticker `X`. -/
def emptyIdX : String → Option String := fun t => if t = "X" then some "" else none

/-- Concrete stored asset used as a stale cache entry. -/
def wAsset : Asset :=
  { symbol := "B", type := "crypto", price := 5, history := [5],
    timestamps := [1], timestamp := some 1 }

/-- Concrete cache holding `wAsset` under the chart key of `B`/7 days. -/
def wCache : Cache := [(cryptoChartKey "B" 7, CacheVal.chartA wAsset)]

/-- Concrete crypto environment whose clock is far past `wAsset`'s
timestamp (so the entry is stale) and whose requests all fail. -/
def wCryptoEnvOld : CryptoEnv :=
  { chartAttempts := fun _ => .error none
    detailAttempts := fun _ => .error none
    now := 1000000 }

/-- Concrete Yahoo chart response with a single valid close. -/
def wGoodStockChart : StockChart := { closes := some [some 100], chartTs := some [some 1] }

/-- Concrete stock environment: first chart attempt answers 429 (a
retryable status), any further attempt would succeed. -/
def wStockEnv429 : StockEnv :=
  { chartAttempts := fun _ _ n => if n = 0 then .error (some 429) else .ok wGoodStockChart
    quoteAttempt := .error none
    now := 0 }

/-- Concrete Yahoo chart response rising from 100 to 110. -/
def wStockChartUp : StockChart :=
  { closes := some [some 100, some 110], chartTs := some [some 1, some 2],
    meta := { chartPreviousClose := 100, regularMarketPrice := 110 } }

/-- Concrete stock environment that always answers `wStockChartUp` and
whose quote fetch fails. -/
def wStockEnvOk : StockEnv :=
  { chartAttempts := fun _ _ _ => .ok wStockChartUp
    quoteAttempt := .error none
    now := 0 }

/-- Concrete cache holding a timestamped entry under key `k`. -/
def wCacheK : Cache := [("k", CacheVal.chartA { timestamp := some 10 })]

/-- Concrete per-iteration environment sequence in which every request
fails. -/
def failEnvs : Nat → FetchEnv := fun _ => failFetchEnv

/-- Concrete id map sending `BTC` to `bitcoin` and nothing else. -/
def btcIds : String → Option String := fun t => if t = "BTC" then some "bitcoin" else none

/-- JS `x || 0` is the identity on exact rationals. -/
lemma jsOr_zero (x : ℚ) : jsOr x 0 = x := by
  unfold jsOr; split_ifs with h
  · exact h.symm
  · rfl

/-- JS `0 || y` yields `y`. -/
lemma jsOr_zero_left (y : ℚ) : jsOr 0 y = y := by
  unfold jsOr; rw [if_pos rfl]

/-- JS `x || y` yields `x` when `x` is truthy. -/
lemma jsOr_of_ne (x y : ℚ) (h : x ≠ 0) : jsOr x y = x := by
  unfold jsOr; rw [if_neg h]

/-- C4: consecutive completions of the rate limiter are spaced by at least
`COINGECKO_DELAY` (5000 ms): the recorded timestamp advances by at least
the spacing, and when the elapsed time is below the spacing the caller
sleeps exactly the remaining difference before the new timestamp is
recorded. -/
theorem waitForCoinGecko_spacing (lastCall now : Int) :
    COINGECKO_DELAY ≤ (waitForCoinGecko lastCall now).2 - lastCall ∧
    (now - lastCall < COINGECKO_DELAY →
      (waitForCoinGecko lastCall now).1 = COINGECKO_DELAY - (now - lastCall) ∧
      (waitForCoinGecko lastCall now).2 = now + (waitForCoinGecko lastCall now).1) := by
  simp only [waitForCoinGecko, COINGECKO_DELAY]
  split_ifs with h <;> constructor <;> intros <;> omega

/-- Witness for C4 at `lastCall = 0`, `now = 2000`. -/
theorem waitForCoinGecko_spacing_check :
    COINGECKO_DELAY ≤ (waitForCoinGecko 0 2000).2 - 0 ∧
    (waitForCoinGecko 0 2000).1 = COINGECKO_DELAY - (2000 - 0) := by
  have h := waitForCoinGecko_spacing 0 2000
  exact ⟨h.1, (h.2 (by decide)).1⟩

/-- C7: the equity adapter maps `lookbackDays` to the provider
`(range, interval)` pair by the fixed policy `≤1 → (1d,1h)`, `≤7 →
(7d,1d)`, `≤30 → (1mo,1d)`, else `(3mo,1d)`. -/
theorem selectRange_policy (days : Int) :
    (days ≤ 1 → selectRange days = ("1d", "1h")) ∧
    (1 < days → days ≤ 7 → selectRange days = ("7d", "1d")) ∧
    (7 < days → days ≤ 30 → selectRange days = ("1mo", "1d")) ∧
    (30 < days → selectRange days = ("3mo", "1d")) := by
  unfold selectRange
  refine ⟨?_, ?_, ?_, ?_⟩ <;> intros <;> split_ifs <;> first | rfl | omega

/-- Witness for C7: lookbackDays 30 selects range `1mo` with interval
`1d`. -/
theorem selectRange_policy_check : selectRange 30 = ("1mo", "1d") :=
  (selectRange_policy 30).2.2.1 (by decide) (by decide)

/-- C8: cache validity is false for an absent key or an entry with a falsy
timestamp, and for a present truthy-timestamped entry holds exactly when
`now - storedAt < ttl`. -/
theorem isCacheValid_spec (cache : Cache) (now : Int) (key : String) (ttl : Int) :
    (cacheGet cache key = none → isCacheValid cache now key ttl = false) ∧
    (∀ e, cacheGet cache key = some e → e.tsField = none →
      isCacheValid cache now key ttl = false) ∧
    (∀ e, cacheGet cache key = some e → e.tsField = some 0 →
      isCacheValid cache now key ttl = false) ∧
    (∀ e t, cacheGet cache key = some e → e.tsField = some t → t ≠ 0 →
      (isCacheValid cache now key ttl = true ↔ now - t < ttl)) := by
  refine ⟨fun h => by simp [isCacheValid, h],
    fun e he hts => by simp [isCacheValid, he, hts],
    fun e he hts => by simp [isCacheValid, he, hts],
    fun e t he hts hne => by simp [isCacheValid, he, hts, hne]⟩

/-- Witness for C8: an entry stored at time 10 is valid at time 30 with a
60000 ms TTL, and invalid at time 70000. -/
theorem isCacheValid_spec_check :
    isCacheValid wCacheK 30 "k" 60000 = true ∧
    isCacheValid wCacheK 70000 "k" 60000 = false := by
  constructor
  · exact ((isCacheValid_spec wCacheK 30 "k" 60000).2.2.2 _ 10 rfl rfl
      (by decide)).mpr (by decide)
  · have h := ((isCacheValid_spec wCacheK 70000 "k" 60000).2.2.2 _ 10 rfl rfl
      (by decide))
    cases hb : isCacheValid wCacheK 70000 "k" 60000
    · rfl
    · exact absurd (h.mp hb) (by decide)

/-- The retry loop succeeds with the value of the first successful attempt
when every earlier attempt fails retryably. -/
lemma retryGo_ok {α : Type} (attempts : Nat → Except (Option Nat) α) :
    ∀ rem i k v, i ≤ k → k ≤ i + rem → attempts k = .ok v →
    (∀ j, i ≤ j → j < k → ∃ st, attempts j = .error st ∧ shouldRetry st = true) →
    retryGo attempts i rem = .ok v := by
  intro rem
  induction rem with
  | zero =>
    intro i k v hik hki hok _
    have hk : k = i := by omega
    subst hk
    simpa [retryGo] using hok
  | succ rem ih =>
    intro i k v hik hki hok hfail
    by_cases hk : k = i
    · subst hk; simp [retryGo, hok]
    · have hi : i < k := by omega
      obtain ⟨st, hst, hr⟩ := hfail i le_rfl hi
      simp only [retryGo, hst, hr, if_true]
      exact ih (i + 1) k v (by omega) (by omega) hok
        (fun j hj1 hj2 => hfail j (by omega) hj2)

/-- When every allowed attempt fails retryably, the loop returns the error
of the last attempt. -/
lemma retryGo_lastfail {α : Type} (attempts : Nat → Except (Option Nat) α) :
    ∀ rem i,
    (∀ j, i ≤ j → j ≤ i + rem → ∃ st, attempts j = .error st ∧ shouldRetry st = true) →
    ∃ st, attempts (i + rem) = .error st ∧ retryGo attempts i rem = .error st := by
  intro rem
  induction rem with
  | zero =>
    intro i h
    obtain ⟨st, hst, _⟩ := h i le_rfl (by omega)
    exact ⟨st, by simpa using hst, by simpa [retryGo] using hst⟩
  | succ rem ih =>
    intro i h
    obtain ⟨st, hst, hr⟩ := h i le_rfl (by omega)
    obtain ⟨st', h1, h2⟩ := ih (i + 1) (fun j hj1 hj2 => h j (by omega) (by omega))
    refine ⟨st', ?_, ?_⟩
    · have he : i + 1 + rem = i + (rem + 1) := by omega
      rwa [he] at h1
    · simp [retryGo, hst, hr, h2]

/-- A terminal (non-retryable) failure propagates the moment it occurs,
provided every earlier attempt failed retryably. -/
lemma retryGo_terminalfail {α : Type} (attempts : Nat → Except (Option Nat) α) :
    ∀ rem i k st, i ≤ k → k ≤ i + rem → attempts k = .error st →
    shouldRetry st = false →
    (∀ j, i ≤ j → j < k → ∃ st2, attempts j = .error st2 ∧ shouldRetry st2 = true) →
    retryGo attempts i rem = .error st := by
  intro rem
  induction rem with
  | zero =>
    intro i k st hik hki hst _ _
    have hk : k = i := by omega
    subst hk
    simpa [retryGo] using hst
  | succ rem ih =>
    intro i k st hik hki hst hterm hfail
    by_cases hk : k = i
    · subst hk; simp [retryGo, hst, hterm]
    · have hi : i < k := by omega
      obtain ⟨st2, hst2, hr2⟩ := hfail i le_rfl hi
      simp only [retryGo, hst2, hr2, if_true]
      exact ih (i + 1) k st (by omega) (by omega) hst hterm
        (fun j hj1 hj2 => hfail j (by omega) hj2)

/-- The loop consults no attempt beyond index `i + rem`. -/
lemma retryGo_congr {α : Type} (attempts attempts' : Nat → Except (Option Nat) α) :
    ∀ rem i, (∀ j, i ≤ j → j ≤ i + rem → attempts j = attempts' j) →
    retryGo attempts i rem = retryGo attempts' i rem := by
  intro rem
  induction rem with
  | zero =>
    intro i h
    simp [retryGo, h i le_rfl (by omega)]
  | succ rem ih =>
    intro i h
    have h0 := h i le_rfl (by omega)
    simp only [retryGo, h0]
    cases attempts' i with
    | ok v => rfl
    | error st =>
      by_cases hr : shouldRetry st = true
      · simp only [hr, if_true]
        exact ih (i + 1) (fun j hj1 hj2 => h j (by omega) (by omega))
      · simp [Bool.not_eq_true] at hr
        simp [hr]

/-- C3: a failed attempt is retried exactly when the status is 429, at
least 500, or absent (no response), and only while further attempts
remain; any other 4xx propagates at once, all-retryable failure chains
propagate the error of the last attempt, a success after retryable
failures is returned, and no attempt beyond the allowance is consulted. -/
theorem axiosGetWithRetry_policy {α : Type}
    (attempts : Nat → Except (Option Nat) α) (retries : Nat) :
    (∀ st : Option Nat, (∀ s, st = some s → 100 ≤ s) →
      (shouldRetry st = true ↔
        st = none ∨ st = some 429 ∨ ∃ s, st = some s ∧ 500 ≤ s)) ∧
    (∀ k st, k ≤ retries → attempts k = .error st → shouldRetry st = false →
      (∀ j, j < k → ∃ st2, attempts j = .error st2 ∧ shouldRetry st2 = true) →
      axiosGetWithRetry attempts retries = .error st) ∧
    ((∀ j, j ≤ retries → ∃ st, attempts j = .error st ∧ shouldRetry st = true) →
      ∃ st, attempts retries = .error st ∧
        axiosGetWithRetry attempts retries = .error st) ∧
    (∀ k v, k ≤ retries → attempts k = .ok v →
      (∀ j, j < k → ∃ st, attempts j = .error st ∧ shouldRetry st = true) →
      axiosGetWithRetry attempts retries = .ok v) ∧
    (∀ attempts' : Nat → Except (Option Nat) α,
      (∀ j, j ≤ retries → attempts j = attempts' j) →
      axiosGetWithRetry attempts retries = axiosGetWithRetry attempts' retries) := by
  refine ⟨?_, ?_, ?_, ?_, ?_⟩
  · intro st hval
    cases st with
    | none => simp [shouldRetry]
    | some s =>
      have h100 := hval s rfl
      simp only [shouldRetry, Bool.or_eq_true, beq_iff_eq, decide_eq_true_eq]
      constructor
      · rintro ((rfl | h) | rfl)
        · exact Or.inr (Or.inl rfl)
        · exact Or.inr (Or.inr ⟨s, rfl, h⟩)
        · omega
      · rintro (h | h | ⟨s', hs', h⟩)
        · exact absurd h (by simp)
        · injection h with h
          exact Or.inl (Or.inl h)
        · injection hs' with hs'
          subst hs'
          exact Or.inl (Or.inr h)
  · intro k st hk hst hterm hfail
    exact retryGo_terminalfail attempts retries 0 k st (by omega) (by omega) hst hterm
      (fun j _ hj2 => hfail j hj2)
  · intro h
    have := retryGo_lastfail attempts retries 0 (fun j _ hj2 => h j (by omega))
    simpa [axiosGetWithRetry] using this
  · intro k v hk hok hfail
    exact retryGo_ok attempts retries 0 k v (by omega) (by omega) hok
      (fun j _ hj2 => hfail j hj2)
  · intro attempts' h
    exact retryGo_congr attempts attempts' retries 0 (fun j _ hj2 => h j (by omega))

/-- Witness for C3: a first-attempt 404 propagates immediately even though
later attempts would succeed. -/
theorem axiosGetWithRetry_policy_check :
    axiosGetWithRetry term404Attempts 3 = .error (some 404) :=
  (axiosGetWithRetry_policy term404Attempts 3).2.1 0 (some 404) (by omega) rfl
    (by decide) (fun j hj => absurd hj (by omega))

/-- C2: when the fetch pipeline of an adapter fails unhandled (on a cache
miss), the error is not propagated: with a cache entry under the asset's
key the entry is returned re-flagged `error = true, fromCache = true`,
otherwise a zero-priced placeholder with `error = true, fromCache = false`
is returned. -/
theorem adapters_failure_fallback (cache : Cache) (env : CryptoEnv)
    (symbol coinId : String) (days : Int)
    (envS : StockEnv) (symbolS : String) (daysS : Int) :
    (isCacheValid cache env.now (cryptoChartKey symbol days) CACHE_TTL = false →
      ∀ st, axiosGetWithRetry env.chartAttempts 3 = .error st →
        (cacheHas cache (cryptoChartKey symbol days) = true →
          (fetchCryptoData cache env symbol coinId days).1 =
            { cachedAsset cache (cryptoChartKey symbol days) with
                error := true, fromCache := true }) ∧
        (cacheHas cache (cryptoChartKey symbol days) = false →
          (fetchCryptoData cache env symbol coinId days).1 = cryptoPlaceholder symbol ∧
          (cryptoPlaceholder symbol).price = 0 ∧
          (cryptoPlaceholder symbol).error = true ∧
          (cryptoPlaceholder symbol).fromCache = false)) ∧
    (isCacheValid cache envS.now (stockKeyOf symbolS daysS) CACHE_TTL = false →
      ∀ st, envS.chartAttempts (selectRange daysS).1 (selectRange daysS).2 0 = .error st →
        (cacheHas cache (stockKeyOf symbolS daysS) = true →
          (fetchStockData cache envS symbolS daysS).1 =
            { cachedAsset cache (stockKeyOf symbolS daysS) with
                error := true, fromCache := true }) ∧
        (cacheHas cache (stockKeyOf symbolS daysS) = false →
          (fetchStockData cache envS symbolS daysS).1 = stockPlaceholder symbolS ∧
          (stockPlaceholder symbolS).price = 0 ∧
          (stockPlaceholder symbolS).error = true ∧
          (stockPlaceholder symbolS).fromCache = false)) := by
  constructor
  · intro hmiss st herr
    constructor
    · intro hhas
      simp [fetchCryptoData, hmiss, herr, hhas]
    · intro hhas
      refine ⟨?_, rfl, rfl, rfl⟩
      simp [fetchCryptoData, hmiss, herr, hhas]
  · intro hmiss st herr
    constructor
    · intro hhas
      simp [fetchStockData, hmiss, herr, hhas]
    · intro hhas
      refine ⟨?_, rfl, rfl, rfl⟩
      simp [fetchStockData, hmiss, herr, hhas]

/-- Witness for C2: with a stale cached record present, a total crypto
fetch failure returns that record re-flagged; with an empty cache, a total
stock fetch failure returns the zero placeholder. -/
theorem adapters_failure_fallback_check :
    (fetchCryptoData wCache wCryptoEnvOld "B" "bitcoin" 7).1 =
      { wAsset with error := true, fromCache := true } ∧
    (fetchStockData [] failStockEnv "AAPL" 7).1 = stockPlaceholder "AAPL" := by
  have h := adapters_failure_fallback wCache wCryptoEnvOld "B" "bitcoin" 7
    failStockEnv "AAPL" 7
  constructor
  · have h1 := ((h.1 (by decide) none rfl).1 (by decide))
    have h2 : cachedAsset wCache (cryptoChartKey "B" 7) = wAsset := by decide
    rw [h1, h2]
  · have h3 := adapters_failure_fallback [] wCryptoEnvOld "B" "bitcoin" 7
      failStockEnv "AAPL" 7
    exact ((h3.2 rfl none rfl).2 rfl).1

/-- C6: on the crypto adapter's successful fetch path the returned price
is the detail record's current price when present and the last filtered
history sample otherwise, and the change is
`(currentPrice - firstSample) / firstSample * 100` when the first filtered
sample is positive and 0 otherwise. -/
theorem cryptoPriceChange_success (cache : Cache) (env : CryptoEnv)
    (symbol coinId : String) (days : Int) (chart : ChartResponse)
    (hmiss : isCacheValid cache env.now (cryptoChartKey symbol days) CACHE_TTL = false)
    (hok : axiosGetWithRetry env.chartAttempts 3 = .ok chart) :
    (fetchCryptoData cache env symbol coinId days).1.price =
      ((cryptoDetailUsed cache env coinId).bind fun d => d.currentPrice).getD
        ((cryptoPricesOf env.now chart).getLast?.getD 0) ∧
    (fetchCryptoData cache env symbol coinId days).1.change =
      (if 0 < (cryptoPricesOf env.now chart).head?.getD 0 then
        (((cryptoDetailUsed cache env coinId).bind fun d => d.currentPrice).getD
            ((cryptoPricesOf env.now chart).getLast?.getD 0) -
          (cryptoPricesOf env.now chart).head?.getD 0) /
          (cryptoPricesOf env.now chart).head?.getD 0 * 100
      else 0) := by
  have hres : (fetchCryptoData cache env symbol coinId days).1 =
      cryptoAssetOf symbol env.now chart (cryptoDetailUsed cache env coinId) := by
    simp [fetchCryptoData, hmiss, hok]
  rw [hres]
  simp only [cryptoAssetOf]
  rw [jsOr_zero]
  refine ⟨rfl, ?_⟩
  by_cases h0 : (cryptoPricesOf env.now chart).head?.getD 0 = 0
  · rw [h0, jsOr_zero_left]
    conv_rhs => rw [if_neg (lt_irrefl (0 : ℚ))]
    split_ifs with h1
    · rw [sub_self, zero_div, zero_mul]
    · rfl
  · rw [jsOr_of_ne _ _ h0]

/-- Witness for C6 on the spec scenario: chart prices 100, 105, 110, the
first chart attempt 429-throttled, no detail data available — the price is
110 and the change +10%. -/
theorem cryptoPriceChange_success_check :
    (fetchCryptoData [] envBTC "BTC" "bitcoin" 7).1.price = 110 ∧
    (fetchCryptoData [] envBTC "BTC" "bitcoin" 7).1.change = 10 := by
  have h := cryptoPriceChange_success [] envBTC "BTC" "bitcoin" 7 scenarioChart rfl rfl
  have hd : cryptoDetailUsed [] envBTC "bitcoin" = none := rfl
  have hp : cryptoPricesOf envBTC.now scenarioChart = [100, 105, 110] := rfl
  constructor
  · rw [h.1, hd, hp]
    rfl
  · rw [h.2, hd, hp]
    have hh : (([100, 105, 110] : List ℚ).head?.getD 0) = 100 := rfl
    have hl : (([100, 105, 110] : List ℚ).getLast?.getD 0) = 110 := rfl
    rw [hh]
    simp only [Option.bind, hl]
    rw [if_pos (by norm_num)]
    norm_num

/-- C10: on the equity adapter's successful fetch path `change24h` is set
to the very same value as `change`, the percent change over the selected
lookback window relative to the previous close. -/
theorem stock_change24h_eq_change (cache : Cache) (env : StockEnv)
    (symbol : String) (days : Int) (chart : StockChart)
    (hmiss : isCacheValid cache env.now (stockKeyOf symbol days) CACHE_TTL = false)
    (hok : env.chartAttempts (selectRange days).1 (selectRange days).2 0 = .ok chart) :
    (fetchStockData cache env symbol days).1.change24h =
      (fetchStockData cache env symbol days).1.change ∧
    (fetchStockData cache env symbol days).1.change = stockChangeOf env.now chart := by
  have hres : (fetchStockData cache env symbol days).1 =
      stockAssetOf symbol env.now chart (quoteUsed env) := by
    simp [fetchStockData, hmiss, hok]
  rw [hres]
  unfold stockAssetOf
  cases quoteUsed env <;> exact ⟨rfl, rfl⟩

/-- Witness for C10 on a chart rising from previous close 100 to price
110 with no quote data. -/
theorem stock_change24h_eq_change_check :
    (fetchStockData [] wStockEnvOk "AAPL" 30).1.change24h =
      (fetchStockData [] wStockEnvOk "AAPL" 30).1.change ∧
    (fetchStockData [] wStockEnvOk "AAPL" 30).1.change = 10 := by
  have h := stock_change24h_eq_change [] wStockEnvOk "AAPL" 30 wStockChartUp rfl rfl
  refine ⟨h.1, h.2.trans ?_⟩
  have hc : stockCurrentPriceOf wStockEnvOk.now wStockChartUp = 110 := rfl
  have hpv : stockPrevCloseOf wStockEnvOk.now wStockChartUp = 100 := rfl
  unfold stockChangeOf
  rw [hc, hpv, if_pos (by norm_num)]
  norm_num

/-- The crypto filtering loop pushes a timestamp exactly when it pushes a
price, so the two output lists have equal length. -/
lemma filterChart_len (now : Int) :
    ∀ l, ((filterChart now l).1).length = ((filterChart now l).2).length := by
  intro l
  induction l with
  | nil => rfl
  | cons p rest ih =>
    obtain ⟨ts, v⟩ := p
    cases v with
    | none => simpa [filterChart] using ih
    | some x => simp [filterChart, ih]

/-- The stock filtering loop pushes a timestamp exactly when it pushes a
close, so the two output lists have equal length. -/
lemma filterCloses_len (now : Int) :
    ∀ cs ts, ((filterCloses now cs ts).1).length = ((filterCloses now cs ts).2).length := by
  intro cs
  induction cs with
  | nil => intro ts; rfl
  | cons c rest ih =>
    intro ts
    cases c with
    | none => simpa [filterCloses] using ih ts.tail
    | some v => simp [filterCloses, ih ts.tail]

/-- A valid cache key is present. -/
lemma isCacheValid_true_some (c : Cache) (now : Int) (k : String) (ttl : Int) :
    isCacheValid c now k ttl = true → ∃ e, cacheGet c k = some e := by
  intro hv
  cases h : cacheGet c k with
  | none => simp [isCacheValid, h] at hv
  | some e => exact ⟨e, rfl⟩

/-- A key `has` by the cache is present. -/
lemma cacheHas_some (c : Cache) (k : String) :
    cacheHas c k = true → ∃ e, cacheGet c k = some e := by
  unfold cacheHas
  exact fun h => Option.isSome_iff_exists.mp h

/-- The seeded crypto price series is never empty. -/
lemma cryptoPricesOf_ne_nil (now : Int) (chart : ChartResponse) :
    cryptoPricesOf now chart ≠ [] := by
  simp only [cryptoPricesOf]
  split_ifs with h
  · simp
  · exact h

/-- Populated crypto timestamps are aligned with the history. -/
lemma crypto_ts_len (now : Int) (chart : ChartResponse) :
    cryptoTimestampsOf now chart ≠ [] →
    (cryptoTimestampsOf now chart).length = (cryptoPricesOf now chart).length := by
  intro hne
  have hl := filterChart_len now (chart.prices.getD [])
  simp only [cryptoPricesOf]
  split_ifs with h
  · exfalso
    apply hne
    apply List.length_eq_zero.mp
    unfold cryptoTimestampsOf
    rw [hl, h]
    rfl
  · exact hl

/-- The asset assembled on the crypto success path satisfies the history
invariant. -/
lemma cryptoAssetOf_wf (symbol : String) (now : Int) (chart : ChartResponse)
    (detail : Option DetailData) : assetWF (cryptoAssetOf symbol now chart detail) :=
  ⟨List.length_pos.mpr (cryptoPricesOf_ne_nil now chart),
   fun h => crypto_ts_len now chart h⟩

/-- The seeded stock close series is never empty. -/
lemma stockClosesOf_ne_nil (now : Int) (chart : StockChart) :
    stockClosesOf now chart ≠ [] := by
  simp only [stockClosesOf]
  split_ifs with h
  · simp
  · exact h

/-- Populated stock timestamps are aligned with the history. -/
lemma stock_ts_len (now : Int) (chart : StockChart) :
    stockTimestampsOf now chart ≠ [] →
    (stockTimestampsOf now chart).length = (stockClosesOf now chart).length := by
  intro hne
  have hl := filterCloses_len now (chart.closes.getD []) (chart.chartTs.getD [])
  simp only [stockClosesOf]
  split_ifs with h
  · exfalso
    apply hne
    apply List.length_eq_zero.mp
    unfold stockTimestampsOf
    rw [← hl, h]
    rfl
  · exact hl.symm ▸ hl

/-- The asset assembled on the stock success path satisfies the history
invariant (the optional quote overrides touch neither history nor
timestamps). -/
lemma stockAssetOf_wf (symbol : String) (now : Int) (chart : StockChart)
    (q : Option QuoteData) : assetWF (stockAssetOf symbol now chart q) := by
  cases q with
  | none =>
    exact ⟨List.length_pos.mpr (stockClosesOf_ne_nil now chart),
      fun h => stock_ts_len now chart h⟩
  | some qd =>
    exact ⟨List.length_pos.mpr (stockClosesOf_ne_nil now chart),
      fun h => stock_ts_len now chart h⟩

/-- C9: every asset returned by either adapter — fresh, cached, stale or
placeholder — has a history of length at least 1, and whenever its
timestamps are populated they are aligned with the history (assuming the
same invariant of whatever is cached under the asset's chart key). -/
theorem asset_history_invariant (cache : Cache) (env : CryptoEnv)
    (symbol coinId : String) (days : Int)
    (envS : StockEnv) (symbolS : String) (daysS : Int) :
    (chartEntryWF cache (cryptoChartKey symbol days) →
      assetWF (fetchCryptoData cache env symbol coinId days).1) ∧
    (chartEntryWF cache (stockKeyOf symbolS daysS) →
      assetWF (fetchStockData cache envS symbolS daysS).1) := by
  constructor
  · intro hwf
    by_cases hv : isCacheValid cache env.now (cryptoChartKey symbol days) CACHE_TTL = true
    · obtain ⟨e, he⟩ := isCacheValid_true_some _ _ _ _ hv
      have hres : (fetchCryptoData cache env symbol coinId days).1 =
          { e.asAsset with fromCache := true } := by
        simp [fetchCryptoData, hv, cachedAsset, he]
      rw [hres]
      exact ⟨(hwf e he).1, (hwf e he).2⟩
    · have hv' : isCacheValid cache env.now (cryptoChartKey symbol days) CACHE_TTL = false := by
        simpa using hv
      cases hok : axiosGetWithRetry env.chartAttempts 3 with
      | error st =>
        by_cases hhas : cacheHas cache (cryptoChartKey symbol days) = true
        · obtain ⟨e, he⟩ := cacheHas_some _ _ hhas
          have hres : (fetchCryptoData cache env symbol coinId days).1 =
              { e.asAsset with error := true, fromCache := true } := by
            simp [fetchCryptoData, hv', hok, hhas, cachedAsset, he]
          rw [hres]
          exact ⟨(hwf e he).1, (hwf e he).2⟩
        · have hhf : cacheHas cache (cryptoChartKey symbol days) = false := by
            simpa using hhas
          have hres : (fetchCryptoData cache env symbol coinId days).1 =
              cryptoPlaceholder symbol := by
            simp [fetchCryptoData, hv', hok, hhf]
          rw [hres]
          exact ⟨le_refl 1, fun h => absurd rfl h⟩
      | ok chart =>
        have hres : (fetchCryptoData cache env symbol coinId days).1 =
            cryptoAssetOf symbol env.now chart (cryptoDetailUsed cache env coinId) := by
          simp [fetchCryptoData, hv', hok]
        rw [hres]
        exact cryptoAssetOf_wf symbol env.now chart (cryptoDetailUsed cache env coinId)
  · intro hwf
    by_cases hv : isCacheValid cache envS.now (stockKeyOf symbolS daysS) CACHE_TTL = true
    · obtain ⟨e, he⟩ := isCacheValid_true_some _ _ _ _ hv
      have hres : (fetchStockData cache envS symbolS daysS).1 =
          { e.asAsset with fromCache := true } := by
        simp [fetchStockData, hv, cachedAsset, he]
      rw [hres]
      exact ⟨(hwf e he).1, (hwf e he).2⟩
    · have hv' : isCacheValid cache envS.now (stockKeyOf symbolS daysS) CACHE_TTL = false := by
        simpa using hv
      cases hok : envS.chartAttempts (selectRange daysS).1 (selectRange daysS).2 0 with
      | error st =>
        by_cases hhas : cacheHas cache (stockKeyOf symbolS daysS) = true
        · obtain ⟨e, he⟩ := cacheHas_some _ _ hhas
          have hres : (fetchStockData cache envS symbolS daysS).1 =
              { e.asAsset with error := true, fromCache := true } := by
            simp [fetchStockData, hv', hok, hhas, cachedAsset, he]
          rw [hres]
          exact ⟨(hwf e he).1, (hwf e he).2⟩
        · have hhf : cacheHas cache (stockKeyOf symbolS daysS) = false := by
            simpa using hhas
          have hres : (fetchStockData cache envS symbolS daysS).1 =
              stockPlaceholder symbolS := by
            simp [fetchStockData, hv', hok, hhf]
          rw [hres]
          exact ⟨le_refl 1, fun h => absurd rfl h⟩
      | ok chart =>
        have hres : (fetchStockData cache envS symbolS daysS).1 =
            stockAssetOf symbolS envS.now chart (quoteUsed envS) := by
          simp [fetchStockData, hv', hok]
        rw [hres]
        exact stockAssetOf_wf symbolS envS.now chart (quoteUsed envS)

/-- Witness for C9 on an empty cache with failing environments. -/
theorem asset_history_invariant_check :
    assetWF (fetchCryptoData [] failCryptoEnv "Z" "zcash" 7).1 ∧
    assetWF (fetchStockData [] failStockEnv "AAPL" 7).1 := by
  have h := asset_history_invariant [] failCryptoEnv "Z" "zcash" 7 failStockEnv "AAPL" 7
  have hempty1 : chartEntryWF [] (cryptoChartKey "Z" 7) := by
    intro e he
    simp [cacheGet] at he
  have hempty2 : chartEntryWF [] (stockKeyOf "AAPL" 7) := by
    intro e he
    simp [cacheGet] at he
  exact ⟨h.1 hempty1, h.2 hempty2⟩

/-- The aggregator loop returns exactly one asset per input ticker. -/
lemma fetchAllFrom_length (envs : Nat → FetchEnv) (ids : String → Option String)
    (days : Int) :
    ∀ ts (cache : Cache) (i : Nat),
      ((fetchAllFrom envs ids days cache i ts).1).length = ts.length := by
  intro ts
  induction ts with
  | nil => intro cache i; rfl
  | cons t rest ih => intro cache i; simp [fetchAllFrom, ih]

/-- The n-th asset of the aggregator loop is produced by dispatching the
n-th ticker against the cache state left by the preceding tickers, using
the n-th environment. -/
lemma fetchAllFrom_get (envs : Nat → FetchEnv) (ids : String → Option String)
    (days : Int) :
    ∀ ts (cache : Cache) (i n : Nat),
      ((fetchAllFrom envs ids days cache i ts).1)[n]? =
        (ts[n]?).map (fun t =>
          (dispatchOne ((fetchAllFrom envs ids days cache i (ts.take n)).2)
            (envs (i + n)) ids days t).1) := by
  intro ts
  induction ts with
  | nil => intro cache i n; simp [fetchAllFrom]
  | cons t rest ih =>
    intro cache i n
    cases n with
    | zero => simp [fetchAllFrom]
    | succ n =>
      have he : i + 1 + n = i + (n + 1) := by omega
      simp only [fetchAllFrom, List.getElem?_cons_succ, List.take_succ_cons]
      rw [ih _ (i + 1) n, he]

/-- Counterexample to C1 as stated: ticker `X` has an entry in the id map
(the empty string), yet the result is the equity placeholder, which is not
the crypto adapter's output for that ticker (the crypto adapter always
reports `type = "crypto"`). -/
theorem fetchAllAssets_dispatch_cex :
    emptyIdX "X" = some "" ∧
    (fetchAllAssets [] failEnvs ["X"] emptyIdX 7).1 = [stockPlaceholder "X"] ∧
    (fetchCryptoData [] failFetchEnv.crypto "X" "" 7).1.type = "crypto" ∧
    (stockPlaceholder "X").type = "stock" := by
  refine ⟨rfl, ?_, rfl, rfl⟩
  decide

/-- C1 (amended): the aggregator returns exactly one asset per input
ticker in input order — never omitting a ticker, whatever the fetch
outcomes — dispatching each ticker to the crypto adapter with its mapped
id when the map carries a non-empty id for it, and to the equity adapter
otherwise (no entry, or an entry holding the empty string). -/
theorem fetchAllAssets_amended (cache : Cache) (envs : Nat → FetchEnv)
    (tickers : List String) (cryptoIds : String → Option String) (days : Int) :
    ((fetchAllAssets cache envs tickers cryptoIds days).1).length = tickers.length ∧
    (∀ n : Nat, ((fetchAllAssets cache envs tickers cryptoIds days).1)[n]? =
      (tickers[n]?).map (fun t =>
        (dispatchOne (fetchAllAssets cache envs (tickers.take n) cryptoIds days).2
          (envs n) cryptoIds days t).1)) ∧
    (∀ (c : Cache) (e : FetchEnv) t coinId, cryptoIds t = some coinId → coinId ≠ "" →
      dispatchOne c e cryptoIds days t = fetchCryptoData c e.crypto t coinId days) ∧
    (∀ (c : Cache) (e : FetchEnv) t, cryptoIds t = none ∨ cryptoIds t = some "" →
      dispatchOne c e cryptoIds days t = fetchStockData c e.stock t days) := by
  refine ⟨fetchAllFrom_length envs cryptoIds days tickers cache 0, ?_, ?_, ?_⟩
  · intro n
    simpa [fetchAllAssets] using fetchAllFrom_get envs cryptoIds days tickers cache 0 n
  · intro c e t coinId hco hne
    simp [dispatchOne, hco, hne]
  · rintro c e t (h | h) <;> simp [dispatchOne, h]

/-- Witness for C1 (amended): two tickers yield two assets, and a ticker
with a non-empty mapped id dispatches to the crypto adapter. -/
theorem fetchAllAssets_amended_check :
    ((fetchAllAssets [] failEnvs ["BTC", "AAPL"] btcIds 7).1).length = 2 ∧
    dispatchOne [] failFetchEnv btcIds 7 "BTC" =
      fetchCryptoData [] failFetchEnv.crypto "BTC" "bitcoin" 7 := by
  have h := fetchAllAssets_amended [] failEnvs ["BTC", "AAPL"] btcIds 7
  exact ⟨h.1, h.2.2.1 [] failFetchEnv "BTC" "bitcoin" rfl (by decide)⟩

/-- Counterexample to C5 as stated: the equity chart request fails once
with 429 — a retryable status — and any retried attempt would succeed,
yet the adapter returns the error placeholder: the request was issued as a
single attempt, not through the retrying fetcher. -/
theorem stock_no_retry_cex :
    shouldRetry (some 429) = true ∧
    (fetchStockData [] wStockEnv429 "AAPL" 7).1 = stockPlaceholder "AAPL" ∧
    axiosGetWithRetry (wStockEnv429.chartAttempts "7d" "1d") 3 = .ok wGoodStockChart := by
  refine ⟨rfl, ?_, rfl⟩
  decide

/-- C5 (amended): the equity adapter issues its chart request as a single
bare attempt outside the retrying fetcher: its result depends only on
attempt 0 (and the quote attempt and clock), and a retryable failure of
that single attempt goes straight to the stale-cache/placeholder fallback
instead of being retried. -/
theorem stock_single_attempt (cache : Cache) (env env' : StockEnv)
    (symbol : String) (days : Int) :
    (env'.now = env.now → env'.quoteAttempt = env.quoteAttempt →
      (∀ r iv, env'.chartAttempts r iv 0 = env.chartAttempts r iv 0) →
      fetchStockData cache env' symbol days = fetchStockData cache env symbol days) ∧
    (∀ st, env.chartAttempts (selectRange days).1 (selectRange days).2 0 = .error st →
      shouldRetry st = true →
      isCacheValid cache env.now (stockKeyOf symbol days) CACHE_TTL = false →
      (fetchStockData cache env symbol days).1.error = true ∧
      ((fetchStockData cache env symbol days).1 =
          { cachedAsset cache (stockKeyOf symbol days) with
              error := true, fromCache := true } ∨
        (fetchStockData cache env symbol days).1 = stockPlaceholder symbol)) := by
  constructor
  · intro h1 h2 h3
    simp only [fetchStockData, quoteUsed, h1, h2, h3]
  · intro st herr _ hmiss
    by_cases hhas : cacheHas cache (stockKeyOf symbol days) = true
    · have hres : (fetchStockData cache env symbol days).1 =
          { cachedAsset cache (stockKeyOf symbol days) with
              error := true, fromCache := true } := by
        simp [fetchStockData, hmiss, herr, hhas]
      rw [hres]
      exact ⟨rfl, Or.inl rfl⟩
    · have hhf : cacheHas cache (stockKeyOf symbol days) = false := by
        simpa using hhas
      have hres : (fetchStockData cache env symbol days).1 = stockPlaceholder symbol := by
        simp [fetchStockData, hmiss, herr, hhf]
      rw [hres]
      exact ⟨rfl, Or.inr rfl⟩

/-- Witness for C5 (amended): the 429-then-success environment yields an
error-flagged result from the equity adapter. -/
theorem stock_single_attempt_check :
    (fetchStockData [] wStockEnv429 "AAPL" 7).1.error = true :=
  ((stock_single_attempt [] wStockEnv429 wStockEnv429 "AAPL" 7).2 (some 429) rfl rfl rfl).1

end Stonks
